import Mathlib

/-!
# Review Board: issue counters, recipient resolution, and review-request details

A shallow embedding of the parts of the Review Board code base that the
specification's testable properties talk about:

* the issue-counter engine of `ReviewRequest` (full recomputation via
  `reload_issue_counts`, incremental updates on review publish and on comment
  status save);
* the notification recipient resolver `build_recipients`;
* `BaseReviewRequestDetails.save` summary truncation and
  `BaseReviewRequestDetails.get_bug_list`
  (from `src/reviewboard/reviews/models/base_review_request_details.py`).

Python strings are modelled as `List Char` (Python indexes and measures
strings by code point, which matches `List Char` exactly).
-/

namespace ReviewBoard

/-! ## Issue counter engine

Modelled from the spec: the implementation (`ReviewRequest.reload_issue_counts`
on `reviewboard/reviews/models/review_request.py`, together with the
publish-time and comment-save-time incremental counter updates) is not part of
the sources provided; only its test suite
(`src/reviewboard/reviews/tests/test_review_request.py`, `IssueCounterTests`)
is.  The definitions below follow spec §4.1: a comment carries
`issue_opened`, an `issue_status` and an optional reply parent; only
top-level (non-reply), `issue_opened` comments on public reviews are counted;
`verifying` pools the two verification sub-states.
-/

/-- The five issue states of a comment
(`OPEN, RESOLVED, DROPPED, VERIFYING_RESOLVED, VERIFYING_DROPPED`). -/
inductive IssueStatus where
  | issueOpen
  | issueResolved
  | issueDropped
  | verifyingResolved
  | verifyingDropped
deriving DecidableEq

/-- A comment, uniformly over the four comment kinds (diff, file attachment,
screenshot, general): the counters only ever look at `issue_opened`,
`issue_status` and whether the comment is a reply (`reply_to` non-null). -/
structure IssueComment where
  issue_opened : Bool
  issue_status : IssueStatus
  is_reply : Bool
deriving DecidableEq

/-- A review: a `public` flag and the comments it owns. -/
structure Review where
  public : Bool
  comments : List IssueComment
deriving DecidableEq

/-- The four denormalized counters cached on a review request row. -/
structure IssueCounts where
  issue_open_count : Nat
  issue_resolved_count : Nat
  issue_dropped_count : Nat
  issue_verifying_count : Nat
deriving DecidableEq

/-- A review request: its reviews plus the cached counters. -/
structure ReviewRequest where
  reviews : List Review
  counts : IssueCounts
deriving DecidableEq

/-- Bucket predicate for `issue_open_count`. -/
def isOpenStatus : IssueStatus → Bool
  | .issueOpen => true
  | _ => false

/-- Bucket predicate for `issue_resolved_count`. -/
def isResolvedStatus : IssueStatus → Bool
  | .issueResolved => true
  | _ => false

/-- Bucket predicate for `issue_dropped_count`. -/
def isDroppedStatus : IssueStatus → Bool
  | .issueDropped => true
  | _ => false

/-- Bucket predicate for `issue_verifying_count`: pools both verification
sub-states. -/
def isVerifyingStatus : IssueStatus → Bool
  | .verifyingResolved => true
  | .verifyingDropped => true
  | _ => false

/-- A comment counts toward the issue totals iff it opened an issue and is
top-level (not a reply). -/
def countsAsIssue (c : IssueComment) : Bool :=
  c.issue_opened && !c.is_reply

/-- Contribution of one comment to the bucket selected by `p`. -/
def commentWeight (p : IssueStatus → Bool) (c : IssueComment) : Nat :=
  if countsAsIssue c && p c.issue_status then 1 else 0

/-- Number of counted comments of a comment list falling in bucket `p`. -/
def commentTally (p : IssueStatus → Bool) (cs : List IssueComment) : Nat :=
  (cs.map (commentWeight p)).sum

/-- Contribution of one review: only public reviews count. -/
def reviewTally (p : IssueStatus → Bool) (r : Review) : Nat :=
  if r.public then commentTally p r.comments else 0

/-- Bucket total over all reviews of a review request. -/
def requestTally (p : IssueStatus → Bool) (rvs : List Review) : Nat :=
  (rvs.map (reviewTally p)).sum

/-- Full recomputation (`reload_issue_counts`): bucket every top-level
`issue_opened` comment of every public review by its status. -/
def reload_issue_counts (rvs : List Review) : IssueCounts :=
  ⟨requestTally isOpenStatus rvs,
   requestTally isResolvedStatus rvs,
   requestTally isDroppedStatus rvs,
   requestTally isVerifyingStatus rvs⟩

/-- Increment the bucket selected by a status. -/
def IssueCounts.incr (k : IssueCounts) (st : IssueStatus) : IssueCounts :=
  ⟨k.issue_open_count + (isOpenStatus st).toNat,
   k.issue_resolved_count + (isResolvedStatus st).toNat,
   k.issue_dropped_count + (isDroppedStatus st).toNat,
   k.issue_verifying_count + (isVerifyingStatus st).toNat⟩

/-- Decrement the bucket selected by a status (`Nat` truncated subtraction;
reachable states never underflow, see the consistency theorems). -/
def IssueCounts.decr (k : IssueCounts) (st : IssueStatus) : IssueCounts :=
  ⟨k.issue_open_count - (isOpenStatus st).toNat,
   k.issue_resolved_count - (isResolvedStatus st).toNat,
   k.issue_dropped_count - (isDroppedStatus st).toNat,
   k.issue_verifying_count - (isVerifyingStatus st).toNat⟩

/-- Publish-time incremental update: for each newly visible top-level
`issue_opened` comment, increment the bucket of its current status. -/
def publishTally (cs : List IssueComment) (k : IssueCounts) : IssueCounts :=
  cs.foldl (fun acc c => if countsAsIssue c then acc.incr c.issue_status else acc) k

/-- The two incremental events of the engine: a draft review becoming public,
and a comment's `issue_status` being changed via save. -/
inductive CounterEvent where
  | publishReview (i : Nat)
  | setIssueStatus (i : Nat) (j : Nat) (st : IssueStatus)
deriving DecidableEq

/-- One incremental step.

* `publishReview i`: if review `i` exists and is still a draft, mark it public
  and increment the counters for each of its counted comments.
* `setIssueStatus i j st`: set comment `j` of review `i` to status `st`;
  if the comment is counted (top-level, `issue_opened`) and its review is
  public, decrement the old status bucket and increment the new one;
  saving a reply, a non-issue comment, or a comment of a draft review leaves
  the counters untouched. -/
def stepEvent : CounterEvent → ReviewRequest → ReviewRequest
  | .publishReview i, rr =>
    match rr.reviews[i]? with
    | none => rr
    | some r =>
      if r.public then rr
      else
        { reviews := rr.reviews.set i { r with public := true },
          counts := publishTally r.comments rr.counts }
  | .setIssueStatus i j st, rr =>
    match rr.reviews[i]? with
    | none => rr
    | some r =>
      match r.comments[j]? with
      | none => rr
      | some c =>
        { reviews := rr.reviews.set i
            { r with comments := r.comments.set j { c with issue_status := st } },
          counts :=
            if r.public && countsAsIssue c then
              (rr.counts.decr c.issue_status).incr st
            else rr.counts }

/-- Incremental replay of a sequence of publish/status-change events. -/
def replay (es : List CounterEvent) (rr : ReviewRequest) : ReviewRequest :=
  es.foldl (fun s e => stepEvent e s) rr

/-- Explicit full recomputation as an operation on the review request. -/
def reloadOp (rr : ReviewRequest) : ReviewRequest :=
  { rr with counts := reload_issue_counts rr.reviews }

/-- Sum of the four counters. -/
def countsSum (k : IssueCounts) : Nat :=
  k.issue_open_count + k.issue_resolved_count +
    k.issue_dropped_count + k.issue_verifying_count

/-- Number of top-level `issue_opened` comments across all public reviews. -/
def totalIssueComments (rvs : List Review) : Nat :=
  requestTally (fun _ => true) rvs

/-! ## Recipient resolver

Modelled from the spec: `build_recipients`
(`reviewboard/notifications/email.py`) is not part of the sources provided;
only its test suite (`src/reviewboard/notifications/tests.py`,
`EmailUtilsTests.test_build_recipients_*`) is.  The definitions follow the
inputs and filters of spec §4.2, with the exact placement and limiting
behaviour pinned by those tests, which are authoritative where the spec's
prose summary disagrees with them:

* every user entering the recipient pool must be active, have
  `should_send_email` set, and belong to the review request's local site when
  it has one; groups must belong to that local site;
* when `limit_recipients_to` is given it *replaces* the reviewer pool: the
  recipients are the submitter plus the filtered allow-list, all in `to`
  (`test_build_recipients_limit_to`, `..._extra_recipients_and_limit_to`);
* otherwise the pool is the submitter, the filtered `extra_recipients`, the
  filtered starring users and the filtered target groups; if at least one
  target person survives the filters, the surviving target people form the
  `to` field and everyone else becomes `cc`; if none survives, the whole pool
  is the `to` field and `cc` is empty (`test_build_recipients_target_groups`,
  `..._target_people_and_groups`);
* a submitter with `should_send_own_updates` off is removed from both sets
  (`test_build_recipients_user_not_receive_own_email`).
-/

/-- A user as the resolver sees one: identity, active flag, the two
notification preferences, and local-site memberships. -/
structure RBUser where
  uid : Nat
  is_active : Bool
  should_send_email : Bool
  should_send_own_updates : Bool
  local_site_ids : List Nat
deriving DecidableEq

/-- A review group: identity and optional local site. -/
structure RBGroup where
  gid : Nat
  local_site_id : Option Nat
deriving DecidableEq

/-- An addressable entity: an individual user or a group. -/
inductive Recipient where
  | user (u : RBUser)
  | group (g : RBGroup)
deriving DecidableEq

/-- The review-request data the resolver consumes. -/
structure EmailReviewRequest where
  submitter : RBUser
  target_people : List RBUser
  target_groups : List RBGroup
  starred_by : List RBUser
  local_site : Option Nat
deriving DecidableEq

/-- Local-site membership filter for users (vacuous without a local site). -/
def siteOkUser (ls : Option Nat) (u : RBUser) : Bool :=
  match ls with
  | none => true
  | some s => u.local_site_ids.contains s

/-- A user survives the filters iff active, e-mail enabled and a member of the
review request's local site when there is one. -/
def userOk (ls : Option Nat) (u : RBUser) : Bool :=
  u.is_active && u.should_send_email && siteOkUser ls u

/-- A group survives iff it belongs to the review request's local site when
there is one. -/
def groupOk (ls : Option Nat) (g : RBGroup) : Bool :=
  match ls with
  | none => true
  | some s => g.local_site_id = some s

/-- Filter for a mixed recipient. -/
def recipOk (ls : Option Nat) : Recipient → Bool
  | .user u => userOk ls u
  | .group g => groupOk ls g

/-- The submitter, as a recipient set (empty when filtered out). -/
def basePool (ls : Option Nat) (submitter : RBUser) : Finset Recipient :=
  if userOk ls submitter then {Recipient.user submitter} else ∅

/-- The target reviewers surviving the user filters. -/
def filteredTargetPeople (rr : EmailReviewRequest) : List Recipient :=
  (rr.target_people.filter (userOk rr.local_site)).map Recipient.user

/-- First stage: the recipient pool and the tentative `to` field. -/
def gatherRecipients (submitter : RBUser) (rr : EmailReviewRequest)
    (extra_recipients : Option (List Recipient))
    (limit_recipients_to : Option (List Recipient)) :
    Finset Recipient × Finset Recipient :=
  match limit_recipients_to with
  | some l =>
    (basePool rr.local_site submitter ∪ (l.filter (recipOk rr.local_site)).toFinset, ∅)
  | none =>
    let tp := filteredTargetPeople rr
    let pool := basePool rr.local_site submitter ∪
      ((extra_recipients.getD []).filter (recipOk rr.local_site)).toFinset ∪
      ((rr.starred_by.filter (userOk rr.local_site)).map Recipient.user).toFinset ∪
      ((rr.target_groups.filter (groupOk rr.local_site)).map Recipient.group).toFinset
    if tp.isEmpty then (pool, ∅) else (pool ∪ tp.toFinset, tp.toFinset)

/-- Second stage: drop the submitter entirely when they opted out of their own
updates. -/
def suppressOwnUpdates (submitter : RBUser)
    (pr : Finset Recipient × Finset Recipient) :
    Finset Recipient × Finset Recipient :=
  if submitter.should_send_own_updates then pr
  else (pr.1.erase (Recipient.user submitter), pr.2.erase (Recipient.user submitter))

/-- Final stage: when no tentative `to` field exists, everyone goes to `to`;
otherwise `cc` is the rest of the pool. -/
def splitToCc (pr : Finset Recipient × Finset Recipient) :
    Finset Recipient × Finset Recipient :=
  if pr.2 = ∅ then (pr.1, ∅) else (pr.2, pr.1 \ pr.2)

/-- `build_recipients(user, review_request, extra_recipients,
limit_recipients_to)`: the `(to, cc)` pair for a notification. -/
def build_recipients (submitter : RBUser) (rr : EmailReviewRequest)
    (extra_recipients : Option (List Recipient))
    (limit_recipients_to : Option (List Recipient)) :
    Finset Recipient × Finset Recipient :=
  splitToCc (suppressOwnUpdates submitter
    (gatherRecipients submitter rr extra_recipients limit_recipients_to))

/-! ## `BaseReviewRequestDetails`

Translated from `src/reviewboard/reviews/models/base_review_request_details.py`:
`MAX_SUMMARY_LENGTH`, `save`, `_truncate` and `get_bug_list`.
-/

/-- `BaseReviewRequestDetails.MAX_SUMMARY_LENGTH`. -/
def MAX_SUMMARY_LENGTH : Nat := 300

/-- Python `str.rfind(ch)`: index of the last occurrence, `none` when absent
(Python returns `-1`). -/
def rfindChar (ch : Char) : List Char → Option Nat
  | [] => none
  | c :: cs =>
    match rfindChar ch cs with
    | some i => some (i + 1)
    | none => if c = ch then some 0 else none

/-- `BaseReviewRequestDetails._truncate(string, num)`: when the string exceeds
`num` characters it is cut to its first `num` characters, and further cut to
end just after the last period of that prefix when the prefix contains one. -/
def truncateSummary (s : List Char) (num : Nat) : List Char :=
  if num < s.length then
    let s1 := s.take num
    match rfindChar '.' s1 with
    | some i => s1.take (i + 1)
    | none => s1
  else s

/-- Python `str.strip()`: remove leading and trailing whitespace. -/
def pyStrip (s : List Char) : List Char :=
  ((s.dropWhile Char.isWhitespace).reverse.dropWhile Char.isWhitespace).reverse

/-- The fields of `BaseReviewRequestDetails` that `save` rewrites. -/
structure ReviewRequestDetails where
  summary : List Char
  bugs_closed : List Char
deriving DecidableEq

/-- `BaseReviewRequestDetails.save`: strips `bugs_closed` and truncates
`summary` to `MAX_SUMMARY_LENGTH` before persisting. -/
def ReviewRequestDetails.save (d : ReviewRequestDetails) : ReviewRequestDetails :=
  { summary := truncateSummary d.summary MAX_SUMMARY_LENGTH,
    bugs_closed := pyStrip d.bugs_closed }

/-- The separator class of `re.split(r"[, ]+", ...)`. -/
def isBugSep (c : Char) : Bool := c = ',' || c = ' '

/-- Worker for `re.split(r"[, ]+", s)`: `some tok` while building a token
(accumulated reversed), `none` while inside a separator run. -/
def splitBugsGo : Option (List Char) → List Char → List (List Char)
  | some tok, [] => [tok.reverse]
  | none, [] => [[]]
  | some tok, c :: rest =>
    if isBugSep c then tok.reverse :: splitBugsGo none rest
    else splitBugsGo (some (c :: tok)) rest
  | none, c :: rest =>
    if isBugSep c then splitBugsGo none rest
    else splitBugsGo (some [c]) rest

/-- `re.split(r"[, ]+", s)`: pieces between maximal runs of commas/spaces,
with an empty piece at either end when the string starts or ends with a
separator. -/
def splitBugs (s : List Char) : List (List Char) :=
  splitBugsGo (some []) s

/-- Value of a nonempty digit string. -/
def digitsVal (ds : List Char) : Int :=
  ds.foldl (fun a c => a * 10 + Int.ofNat (c.toNat - 48)) 0

/-- Parse a plain unsigned decimal numeral. -/
def parseDigits (ds : List Char) : Option Int :=
  if !ds.isEmpty && ds.all Char.isDigit then some (digitsVal ds) else none

/-- Python `int(s)` on a string: optional surrounding whitespace, optional
sign, then a nonempty run of (ASCII) digits; `none` models `ValueError`. -/
def pyInt (s : List Char) : Option Int :=
  match pyStrip s with
  | '+' :: ds => parseDigits ds
  | '-' :: ds => (parseDigits ds).map (fun n => -n)
  | ds => parseDigits ds

/-- The `key=int` sort key (total on the tokens actually sorted numerically,
where parsing never fails; defaulted elsewhere). -/
def bugKeyVal (s : List Char) : Int :=
  (pyInt s).getD 0

/-- Lexicographic comparison of Python strings by code point, as `sort()`
uses. -/
def strLE : List Char → List Char → Bool
  | [], _ => true
  | _ :: _, [] => false
  | a :: as, b :: bs => if a < b then true else if b < a then false else strLE as bs

/-- Does every token parse as an integer (so that `sort(key=int)` does not
raise)? -/
def allParseAsInt (bugs : List (List Char)) : Bool :=
  bugs.all (fun b => (pyInt b).isSome)

/-- `BaseReviewRequestDetails.get_bug_list`: `[]` for the empty string;
otherwise the de-duplicated split tokens (`list(set(re.split(r"[, ]+", ...)))`,
whose arbitrary set order is then fully sorted), sorted by `key=int` when
every token parses as an integer and alphabetically otherwise (CPython
restores the original order when the `key` call raises, so the alphabetical
sort starts from the unsorted tokens). -/
def get_bug_list (bugs_closed : List Char) : List (List Char) :=
  if bugs_closed = [] then []
  else
    let bugs := (splitBugs bugs_closed).dedup
    if allParseAsInt bugs then
      bugs.insertionSort (fun a b => bugKeyVal a ≤ bugKeyVal b)
    else
      bugs.insertionSort (fun a b => strLE a b = true)

/-! ## Concrete instances used by the closed witnesses and counterexamples -/

/-- A draft review with a counted open-issue comment, a reply and a non-issue
comment. -/
def demoReview : Review :=
  ⟨false, [⟨true, .issueOpen, false⟩, ⟨true, .issueOpen, true⟩, ⟨false, .issueOpen, false⟩]⟩

/-- Publish the review, then resolve its first comment. -/
def demoEvents : List CounterEvent :=
  [.publishReview 0, .setIssueStatus 0 0 .issueResolved]

/-- A review request whose cached counters agree with full recomputation. -/
def demoRequest : ReviewRequest :=
  ⟨[⟨true, [⟨true, .issueOpen, false⟩, ⟨true, .issueDropped, false⟩]⟩], ⟨1, 0, 1, 0⟩⟩

/-- A review request with a published review and a draft reply review. -/
def demoReplyRequest : ReviewRequest :=
  ⟨[⟨true, [⟨true, .issueOpen, false⟩]⟩, ⟨false, [⟨true, .issueOpen, true⟩]⟩], ⟨1, 0, 0, 0⟩⟩

/-- An active submitter with default preferences and no local site. -/
def demoSubmitter : RBUser := ⟨0, true, true, true, []⟩

/-- An active reviewer with default preferences. -/
def demoReviewer : RBUser := ⟨1, true, true, true, []⟩

/-- Another active user with default preferences, not a target reviewer. -/
def demoGrumpy : RBUser := ⟨2, true, true, true, []⟩

/-- A review group without a local site. -/
def demoGroup1 : RBGroup := ⟨1, none⟩

/-- Another review group without a local site. -/
def demoGroup2 : RBGroup := ⟨2, none⟩

/-- Target groups but no target people
(the `test_build_recipients_target_groups` scenario). -/
def demoGroupsRequest : EmailReviewRequest :=
  ⟨demoSubmitter, [], [demoGroup1, demoGroup2], [], none⟩

/-- One target person and one target group
(the `test_build_recipients_target_people_and_groups` scenario). -/
def demoPeopleRequest : EmailReviewRequest :=
  ⟨demoSubmitter, [demoReviewer], [demoGroup1], [], none⟩

/-- No reviewers at all
(the `test_build_recipients_user_receive_email` scenario). -/
def demoEmptyRequest : EmailReviewRequest :=
  ⟨demoSubmitter, [], [], [], none⟩

/-- A 302-character summary whose 300-character prefix ends in a period. -/
def demoLongSummary : List Char :=
  List.replicate 299 'a' ++ '.' :: List.replicate 2 'b'

/-- The bug string `"10,2,2"`. -/
def demoBugs : List Char := ['1', '0', ',', '2', ',', '2']

/-- An inactive user (otherwise default preferences). -/
def demoInactive : RBUser := ⟨9, false, true, true, []⟩

/-- A review request whose only target person is inactive. -/
def demoInactiveRequest : EmailReviewRequest :=
  ⟨demoSubmitter, [demoInactive], [], [], none⟩

/-! ## Helper lemmas about tallies -/

/-- Replacing one list element trades its contribution to a mapped sum for the
new element's contribution. -/
theorem sum_map_set {α : Type} (f : α → Nat) :
    ∀ (l : List α) (i : Nat) (a b : α), l[i]? = some b →
      ((l.set i a).map f).sum + f b = (l.map f).sum + f a := by
  intro l
  induction l with
  | nil => intro i a b h; simp at h
  | cons x xs ih =>
    intro i a b h
    cases i with
    | zero =>
      simp only [List.getElem?_cons_zero, Option.some.injEq] at h
      subst h
      simp only [List.set_cons_zero, List.map_cons, List.sum_cons]
      omega
    | succ n =>
      simp only [List.getElem?_cons_succ] at h
      have h2 := ih n a b h
      simp only [List.set_cons_succ, List.map_cons, List.sum_cons]
      omega

/-- An element's contribution is at most the mapped sum. -/
theorem le_sum_map {α : Type} (f : α → Nat) :
    ∀ (l : List α) (i : Nat) (b : α), l[i]? = some b → f b ≤ (l.map f).sum := by
  intro l
  induction l with
  | nil => intro i b h; simp at h
  | cons x xs ih =>
    intro i b h
    cases i with
    | zero =>
      simp only [List.getElem?_cons_zero, Option.some.injEq] at h
      subst h
      simp only [List.map_cons, List.sum_cons]
      omega
    | succ n =>
      simp only [List.getElem?_cons_succ] at h
      have h2 := ih n b h
      simp only [List.map_cons, List.sum_cons]
      omega

/-- `publishTally` adds each bucket's comment tally to the running counters. -/
theorem publishTally_eq (cs : List IssueComment) (k : IssueCounts) :
    publishTally cs k =
      ⟨k.issue_open_count + commentTally isOpenStatus cs,
       k.issue_resolved_count + commentTally isResolvedStatus cs,
       k.issue_dropped_count + commentTally isDroppedStatus cs,
       k.issue_verifying_count + commentTally isVerifyingStatus cs⟩ := by
  induction cs generalizing k with
  | nil => simp [publishTally, commentTally]
  | cons c cs ih =>
    simp only [publishTally, List.foldl_cons] at *
    rw [ih]
    by_cases hc : countsAsIssue c
    all_goals
      simp [hc, IssueCounts.incr, commentTally, commentWeight, IssueCounts.mk.injEq,
        Bool.toNat, Bool.cond_eq_ite]
    all_goals omega

/-- Each incremental event keeps the cached counters equal to a full
recomputation over the resulting reviews. -/
theorem stepEvent_consistent (e : CounterEvent) (rr : ReviewRequest)
    (h : rr.counts = reload_issue_counts rr.reviews) :
    (stepEvent e rr).counts = reload_issue_counts (stepEvent e rr).reviews := by
  cases e with
  | publishReview i =>
    cases hget : rr.reviews[i]? with
    | none => simpa [stepEvent, hget] using h
    | some r =>
      by_cases hp : r.public = true
      · simpa [stepEvent, hget, hp] using h
      · simp only [stepEvent, hget, hp, if_neg, Bool.not_eq_true]
        rw [publishTally_eq, h]
        have key : ∀ p : IssueStatus → Bool,
            requestTally p rr.reviews + commentTally p r.comments =
              requestTally p (rr.reviews.set i { r with public := true }) := by
          intro p
          have hs := sum_map_set (reviewTally p) rr.reviews i { r with public := true } r hget
          have hr0 : reviewTally p r = 0 := by simp [reviewTally, hp]
          have hr1 : reviewTally p { r with public := true } = commentTally p r.comments := by
            simp [reviewTally]
          rw [hr0, hr1] at hs
          unfold requestTally
          omega
        simp only [reload_issue_counts, IssueCounts.mk.injEq]
        exact ⟨key isOpenStatus, key isResolvedStatus, key isDroppedStatus, key isVerifyingStatus⟩
  | setIssueStatus i j st =>
    cases hget : rr.reviews[i]? with
    | none => simpa [stepEvent, hget] using h
    | some r =>
      cases hcg : r.comments[j]? with
      | none => simpa [stepEvent, hget, hcg] using h
      | some c =>
        simp only [stepEvent, hget, hcg]
        have key : ∀ p : IssueStatus → Bool,
            requestTally p (rr.reviews.set i
                { r with comments := r.comments.set j { c with issue_status := st } }) +
              reviewTally p r =
            requestTally p rr.reviews +
              reviewTally p { r with comments := r.comments.set j { c with issue_status := st } } := by
          intro p
          have hs := sum_map_set (reviewTally p) rr.reviews i
            { r with comments := r.comments.set j { c with issue_status := st } } r hget
          unfold requestTally
          omega
        have key2 : ∀ p : IssueStatus → Bool,
            commentTally p (r.comments.set j { c with issue_status := st }) +
              commentWeight p c =
            commentTally p r.comments + commentWeight p { c with issue_status := st } := by
          intro p
          have hs := sum_map_set (commentWeight p) r.comments j { c with issue_status := st } c hcg
          unfold commentTally
          omega
        have keyle : ∀ p : IssueStatus → Bool, commentWeight p c ≤ commentTally p r.comments :=
          fun p => le_sum_map (commentWeight p) r.comments j c hcg
        have keyle2 : ∀ p : IssueStatus → Bool, reviewTally p r ≤ requestTally p rr.reviews :=
          fun p => le_sum_map (reviewTally p) rr.reviews i r hget
        by_cases hp : r.public = true
        · by_cases hq : countsAsIssue c = true
          · rw [if_pos (by simp [hp, hq])]
            rw [h]
            simp only [reload_issue_counts, IssueCounts.decr, IssueCounts.incr,
              IssueCounts.mk.injEq]
            have main : ∀ p : IssueStatus → Bool,
                requestTally p rr.reviews - (p c.issue_status).toNat + (p st).toNat =
                  requestTally p (rr.reviews.set i
                    { r with comments := r.comments.set j { c with issue_status := st } }) := by
              intro p
              have hA := key p
              have hB := key2 p
              have hC := keyle p
              have hD := keyle2 p
              have hr : reviewTally p r = commentTally p r.comments := by
                simp [reviewTally, hp]
              have hr2 : reviewTally p
                    { r with comments := r.comments.set j { c with issue_status := st } } =
                  commentTally p (r.comments.set j { c with issue_status := st }) := by
                simp [reviewTally, hp]
              have hq2 : countsAsIssue { c with issue_status := st } = true := by
                simpa [countsAsIssue] using hq
              have hw : commentWeight p c = (p c.issue_status).toNat := by
                simp [commentWeight, hq, Bool.toNat, Bool.cond_eq_ite]
              have hw2 : commentWeight p { c with issue_status := st } = (p st).toNat := by
                simp [commentWeight, hq2, Bool.toNat, Bool.cond_eq_ite]
              rw [hr, hr2] at hA
              rw [hw, hw2] at hB
              rw [hw] at hC
              rw [hr] at hD
              omega
            exact ⟨main isOpenStatus, main isResolvedStatus, main isDroppedStatus,
              main isVerifyingStatus⟩
          · rw [if_neg (by simp [hq])]
            rw [h]
            simp only [reload_issue_counts, IssueCounts.mk.injEq]
            have main : ∀ p : IssueStatus → Bool,
                requestTally p rr.reviews =
                  requestTally p (rr.reviews.set i
                    { r with comments := r.comments.set j { c with issue_status := st } }) := by
              intro p
              have hA := key p
              have hB := key2 p
              have hq2 : countsAsIssue { c with issue_status := st } = false := by
                simpa [countsAsIssue] using hq
              have hw : commentWeight p c = 0 := by
                simp [commentWeight, hq]
              have hw2 : commentWeight p { c with issue_status := st } = 0 := by
                simp [commentWeight, hq2]
              have hr : reviewTally p r = commentTally p r.comments := by
                simp [reviewTally, hp]
              have hr2 : reviewTally p
                    { r with comments := r.comments.set j { c with issue_status := st } } =
                  commentTally p (r.comments.set j { c with issue_status := st }) := by
                simp [reviewTally, hp]
              rw [hr, hr2] at hA
              rw [hw, hw2] at hB
              omega
            exact ⟨main isOpenStatus, main isResolvedStatus, main isDroppedStatus,
              main isVerifyingStatus⟩
        · rw [if_neg (by simp [hp])]
          rw [h]
          simp only [reload_issue_counts, IssueCounts.mk.injEq]
          have main : ∀ p : IssueStatus → Bool,
              requestTally p rr.reviews =
                requestTally p (rr.reviews.set i
                  { r with comments := r.comments.set j { c with issue_status := st } }) := by
            intro p
            have hA := key p
            have hr : reviewTally p r = 0 := by simp [reviewTally, hp]
            have hr2 : reviewTally p
                  { r with comments := r.comments.set j { c with issue_status := st } } = 0 := by
              simp [reviewTally, hp]
            rw [hr, hr2] at hA
            omega
          exact ⟨main isOpenStatus, main isResolvedStatus, main isDroppedStatus,
            main isVerifyingStatus⟩

/-- Replaying any event sequence keeps the counters equal to a full
recomputation, provided they start that way. -/
theorem replay_consistent (es : List CounterEvent) (rr : ReviewRequest)
    (h : rr.counts = reload_issue_counts rr.reviews) :
    (replay es rr).counts = reload_issue_counts (replay es rr).reviews := by
  induction es generalizing rr with
  | nil => simpa [replay] using h
  | cons e es ih =>
    have h1 := stepEvent_consistent e rr h
    simpa [replay] using ih (stepEvent e rr) h1

/-- A review request with no public reviews recomputes to all-zero counters. -/
theorem reload_all_draft (rvs : List Review) (hdraft : ∀ r ∈ rvs, r.public = false) :
    reload_issue_counts rvs = ⟨0, 0, 0, 0⟩ := by
  have key : ∀ p : IssueStatus → Bool, requestTally p rvs = 0 := by
    intro p
    unfold requestTally
    induction rvs with
    | nil => simp
    | cons r rs ih =>
      have hr : r.public = false := hdraft r (by simp)
      have hrest : ∀ r2 ∈ rs, r2.public = false := fun r2 hr2 => hdraft r2 (by simp [hr2])
      simp [reviewTally, hr, ih hrest]
  simp [reload_issue_counts, key]

/-- C1: for every review request and every fixed final set of top-level,
issue-opened comments on its public reviews (here: the comment set reached by
replaying an arbitrary sequence of publish and status-change events over
initially draft reviews), the four issue counters produced by full
recomputation from null (`reload_issue_counts` over the final reviews) equal
the counters produced by incrementally replaying the same events starting
from zero. -/
theorem replay_counts_eq_reload (rvs : List Review)
    (hdraft : ∀ r ∈ rvs, r.public = false) (es : List CounterEvent) :
    (replay es { reviews := rvs, counts := ⟨0, 0, 0, 0⟩ }).counts =
      reload_issue_counts (replay es { reviews := rvs, counts := ⟨0, 0, 0, 0⟩ }).reviews := by
  apply replay_consistent
  simpa using (reload_all_draft rvs hdraft).symm

/-- Witness for C1 at a concrete review and event sequence. -/
theorem replay_counts_eq_reload_witness :
    (∀ r ∈ [demoReview], r.public = false) ∧
    (replay demoEvents { reviews := [demoReview], counts := ⟨0, 0, 0, 0⟩ }).counts =
      reload_issue_counts
        (replay demoEvents { reviews := [demoReview], counts := ⟨0, 0, 0, 0⟩ }).reviews :=
  ⟨by decide, replay_counts_eq_reload [demoReview] (by decide) demoEvents⟩

/-- The four bucket tallies of one comment list partition its total count. -/
theorem commentTally_partition (cs : List IssueComment) :
    commentTally isOpenStatus cs + commentTally isResolvedStatus cs +
      commentTally isDroppedStatus cs + commentTally isVerifyingStatus cs =
    commentTally (fun _ => true) cs := by
  induction cs with
  | nil => simp [commentTally]
  | cons c cs ih =>
    simp only [commentTally, List.map_cons, List.sum_cons] at *
    by_cases hq : countsAsIssue c = true
    · cases hst : c.issue_status <;>
        simp [commentWeight, hq, hst, isOpenStatus, isResolvedStatus, isDroppedStatus,
          isVerifyingStatus] <;>
        omega
    · simp only [Bool.not_eq_true] at hq
      simp [commentWeight, hq]
      omega

/-- The four bucket tallies of a review request partition the number of
counted comments. -/
theorem reload_partition (rvs : List Review) :
    countsSum (reload_issue_counts rvs) = totalIssueComments rvs := by
  simp only [reload_issue_counts, countsSum, totalIssueComments]
  unfold requestTally
  induction rvs with
  | nil => simp
  | cons r rs ih =>
    simp only [List.map_cons, List.sum_cons]
    have hr : reviewTally isOpenStatus r + reviewTally isResolvedStatus r +
        reviewTally isDroppedStatus r + reviewTally isVerifyingStatus r =
        reviewTally (fun _ => true) r := by
      by_cases hp : r.public = true <;> simp [reviewTally, hp, commentTally_partition]
    omega

/-- C2: for a review request whose (non-null) counters agree with full
recomputation — which is how they are established when first computed —
`open + resolved + dropped + verifying` equals the number of top-level
(non-reply) `issue_opened` comments across all public reviews, and every
operation (publish, comment status save, full recompute) preserves this
equality. -/
theorem counts_sum_eq_issue_count (rr : ReviewRequest)
    (h : rr.counts = reload_issue_counts rr.reviews) :
    countsSum rr.counts = totalIssueComments rr.reviews ∧
    (∀ e : CounterEvent,
      countsSum (stepEvent e rr).counts = totalIssueComments (stepEvent e rr).reviews) ∧
    countsSum (reloadOp rr).counts = totalIssueComments (reloadOp rr).reviews := by
  refine ⟨?_, ?_, ?_⟩
  · rw [h]; exact reload_partition rr.reviews
  · intro e
    rw [stepEvent_consistent e rr h]
    exact reload_partition (stepEvent e rr).reviews
  · exact reload_partition rr.reviews

/-- Witness for C2 at a concrete consistent review request. -/
theorem counts_sum_eq_issue_count_witness :
    demoRequest.counts = reload_issue_counts demoRequest.reviews ∧
    countsSum demoRequest.counts = totalIssueComments demoRequest.reviews :=
  ⟨by decide, (counts_sum_eq_issue_count demoRequest (by decide)).1⟩

/-- A list of reply comments tallies to zero in every bucket. -/
theorem commentTally_all_replies (p : IssueStatus → Bool) :
    ∀ cs : List IssueComment, (∀ c ∈ cs, c.is_reply = true) → commentTally p cs = 0 := by
  intro cs
  induction cs with
  | nil => intro _; simp [commentTally]
  | cons c cs ih =>
    intro hall
    have hc : c.is_reply = true := hall c (by simp)
    have hrest := ih (fun c2 hc2 => hall c2 (by simp [hc2]))
    simp only [commentTally, List.map_cons, List.sum_cons] at *
    simp [commentWeight, countsAsIssue, hc, hrest]

/-- C3: publishing a review all of whose comments are replies, or saving a
reply comment under any status, leaves all four issue counters unchanged —
only top-level comments ever contribute. -/
theorem reply_comments_never_change_counts :
    (∀ (rr : ReviewRequest) (i : Nat) (r : Review), rr.reviews[i]? = some r →
      (∀ c ∈ r.comments, c.is_reply = true) →
      (stepEvent (.publishReview i) rr).counts = rr.counts) ∧
    (∀ (rr : ReviewRequest) (i j : Nat) (st : IssueStatus) (r : Review)
      (c : IssueComment), rr.reviews[i]? = some r → r.comments[j]? = some c →
      c.is_reply = true →
      (stepEvent (.setIssueStatus i j st) rr).counts = rr.counts) := by
  constructor
  · intro rr i r hget hall
    by_cases hp : r.public = true
    · simp [stepEvent, hget, hp]
    · simp only [stepEvent, hget, hp, if_neg, Bool.not_eq_true]
      rw [publishTally_eq]
      simp [commentTally_all_replies _ r.comments hall]
  · intro rr i j st r c hget hcg hrep
    have hq : countsAsIssue c = false := by simp [countsAsIssue, hrep]
    simp [stepEvent, hget, hcg, hq]

/-- Witness for C3: publishing the draft reply review of `demoReplyRequest`
and saving its reply comment leave the counters untouched. -/
theorem reply_comments_never_change_counts_witness :
    (stepEvent (.publishReview 1) demoReplyRequest).counts = demoReplyRequest.counts ∧
    (stepEvent (.setIssueStatus 1 0 .issueDropped) demoReplyRequest).counts =
      demoReplyRequest.counts :=
  ⟨reply_comments_never_change_counts.1 demoReplyRequest 1
      ⟨false, [⟨true, .issueOpen, true⟩]⟩ (by decide) (by decide),
   reply_comments_never_change_counts.2 demoReplyRequest 1 0 .issueDropped
      ⟨false, [⟨true, .issueOpen, true⟩]⟩ ⟨true, .issueOpen, true⟩
      (by decide) (by decide) (by decide)⟩

/-- C4: full recomputation is idempotent — running `reload_issue_counts`
twice in a row with no intervening comment changes yields identical values
for all four counters both times (indeed the same review request state). -/
theorem reload_issue_counts_idempotent (rr : ReviewRequest) :
    reloadOp (reloadOp rr) = reloadOp rr ∧
    (reloadOp (reloadOp rr)).counts = (reloadOp rr).counts :=
  ⟨rfl, rfl⟩

/-! ## Helper lemmas about the recipient resolver -/

/-- The tentative `to` field is always part of the pool. -/
theorem gather_snd_subset (submitter : RBUser) (rr : EmailReviewRequest)
    (extra limit : Option (List Recipient)) :
    (gatherRecipients submitter rr extra limit).2 ⊆
      (gatherRecipients submitter rr extra limit).1 := by
  cases limit with
  | some l => simp [gatherRecipients]
  | none =>
    by_cases he : (filteredTargetPeople rr).isEmpty = true
    · simp [gatherRecipients, he]
    · simp only [gatherRecipients, he, Bool.false_eq_true, if_false]
      exact Finset.subset_union_right

/-- Every user in the gathered pool passed the activity, e-mail preference and
local-site filters. -/
theorem user_mem_gather (submitter : RBUser) (rr : EmailReviewRequest)
    (extra limit : Option (List Recipient)) (u : RBUser)
    (hm : Recipient.user u ∈ (gatherRecipients submitter rr extra limit).1) :
    userOk rr.local_site u = true := by
  have base_case : Recipient.user u ∈ basePool rr.local_site submitter →
      userOk rr.local_site u = true := by
    intro hb
    by_cases hs : userOk rr.local_site submitter = true
    · simp only [basePool, hs, if_true, Finset.mem_singleton, Recipient.user.injEq] at hb
      rw [hb]; exact hs
    · simp [basePool, hs] at hb
  cases limit with
  | some l =>
    simp only [gatherRecipients, Finset.mem_union, List.mem_toFinset,
      List.mem_filter] at hm
    rcases hm with hb | hl
    · exact base_case hb
    · exact hl.2
  | none =>
    by_cases he : (filteredTargetPeople rr).isEmpty = true
    · simp only [gatherRecipients, he, if_true, Finset.mem_union, List.mem_toFinset,
        List.mem_filter, List.mem_map] at hm
      rcases hm with ((hb | hx) | hs) | hg
      · exact base_case hb
      · exact hx.2
      · rcases hs with ⟨v, ⟨_, hvok⟩, hvu⟩
        cases hvu
        exact hvok
      · rcases hg with ⟨g, _, hgu⟩
        cases hgu
    · simp only [gatherRecipients, he, Bool.false_eq_true, if_false, Finset.mem_union,
        List.mem_toFinset, List.mem_filter, List.mem_map] at hm
      rcases hm with (((hb | hx) | hs) | hg) | ht
      · exact base_case hb
      · exact hx.2
      · rcases hs with ⟨v, ⟨_, hvok⟩, hvu⟩
        cases hvu
        exact hvok
      · rcases hg with ⟨g, _, hgu⟩
        cases hgu
      · simp only [filteredTargetPeople, List.mem_map, List.mem_filter] at ht
        rcases ht with ⟨v, ⟨_, hvok⟩, hvu⟩
        cases hvu
        exact hvok

/-- Both final sets live inside the gathered pool. -/
theorem build_subset_gather (submitter : RBUser) (rr : EmailReviewRequest)
    (extra limit : Option (List Recipient)) :
    (build_recipients submitter rr extra limit).1 ⊆
      (gatherRecipients submitter rr extra limit).1 ∧
    (build_recipients submitter rr extra limit).2 ⊆
      (gatherRecipients submitter rr extra limit).1 := by
  have hsub := gather_snd_subset submitter rr extra limit
  unfold build_recipients splitToCc suppressOwnUpdates
  by_cases ho : submitter.should_send_own_updates = true
  · simp only [ho, if_true]
    by_cases hz : (gatherRecipients submitter rr extra limit).2 = ∅
    · simp only [hz, if_pos rfl]
      exact ⟨Finset.Subset.refl _, Finset.empty_subset _⟩
    · simp only [if_neg hz]
      exact ⟨hsub, Finset.Subset.trans (Finset.sdiff_subset) (Finset.Subset.refl _)⟩
  · simp only [ho, Bool.false_eq_true, if_false]
    by_cases hz : (gatherRecipients submitter rr extra limit).2.erase
        (Recipient.user submitter) = ∅
    · simp only [hz, if_pos rfl]
      exact ⟨Finset.erase_subset _ _, Finset.empty_subset _⟩
    · simp only [if_neg hz]
      exact ⟨Finset.Subset.trans (Finset.erase_subset _ _) hsub,
        Finset.Subset.trans (Finset.sdiff_subset) (Finset.erase_subset _ _)⟩

/-- Every user in either final set passed the user filters. -/
theorem user_mem_build (submitter : RBUser) (rr : EmailReviewRequest)
    (extra limit : Option (List Recipient)) (u : RBUser)
    (hm : Recipient.user u ∈ (build_recipients submitter rr extra limit).1 ∨
          Recipient.user u ∈ (build_recipients submitter rr extra limit).2) :
    userOk rr.local_site u = true := by
  rcases hm with hm | hm
  · exact user_mem_gather submitter rr extra limit u
      ((build_subset_gather submitter rr extra limit).1 hm)
  · exact user_mem_gather submitter rr extra limit u
      ((build_subset_gather submitter rr extra limit).2 hm)

/-- C8: a user who is marked inactive, or who does not belong to the review
request's local site when the review request belongs to one, never appears in
either the `to` set or the `cc` set — regardless of being listed in
`target_people`, `limit_recipients_to` or `extra_recipients`. -/
theorem inactive_or_nonmember_excluded (submitter : RBUser) (rr : EmailReviewRequest)
    (extra limit : Option (List Recipient)) (u : RBUser)
    (h : u.is_active = false ∨ siteOkUser rr.local_site u = false) :
    Recipient.user u ∉ (build_recipients submitter rr extra limit).1 ∧
    Recipient.user u ∉ (build_recipients submitter rr extra limit).2 := by
  have hno : userOk rr.local_site u = false := by
    rcases h with h | h <;> simp [userOk, h]
  constructor <;> intro hm
  · have hyes := user_mem_build submitter rr extra limit u (Or.inl hm)
    rw [hno] at hyes
    exact Bool.false_ne_true hyes
  · have hyes := user_mem_build submitter rr extra limit u (Or.inr hm)
    rw [hno] at hyes
    exact Bool.false_ne_true hyes

/-- Witness for C8: the inactive target person of `demoInactiveRequest` is in
neither set. -/
theorem inactive_or_nonmember_excluded_witness :
    Recipient.user demoInactive ∉
      (build_recipients demoSubmitter demoInactiveRequest none none).1 ∧
    Recipient.user demoInactive ∉
      (build_recipients demoSubmitter demoInactiveRequest none none).2 :=
  inactive_or_nonmember_excluded demoSubmitter demoInactiveRequest none none
    demoInactive (Or.inl rfl)

/-- C5 counterexample: in the `test_build_recipients_target_groups` scenario —
default preferences, no `limit_recipients_to`, target groups present but no
target people — the submitter and every target group land in `to`, and `cc`
is empty, contradicting the claim that the submitter and the target groups
are placed in the `cc` set. -/
theorem target_groups_not_in_cc :
    demoGroupsRequest.target_groups = [demoGroup1, demoGroup2] ∧
    (build_recipients demoSubmitter demoGroupsRequest none none).2 = ∅ ∧
    Recipient.group demoGroup1 ∉
      (build_recipients demoSubmitter demoGroupsRequest none none).2 ∧
    Recipient.user demoSubmitter ∉
      (build_recipients demoSubmitter demoGroupsRequest none none).2 ∧
    (build_recipients demoSubmitter demoGroupsRequest none none).1 =
      {Recipient.user demoSubmitter, Recipient.group demoGroup1,
        Recipient.group demoGroup2} := by
  decide

/-- C5 (amended): for every recipient computation without
`limit_recipients_to`, with a submitter who passes the filters and keeps
default preferences: every `target_people` member surviving the
activity/e-mail/local-site filters is placed in `to`; when at least one
target person survives, the submitter (unless themselves a target person) and
every surviving target group are placed in `cc`; when no target person
survives, `cc` is empty and the submitter and the surviving target groups are
placed in `to` instead. -/
theorem build_recipients_placement (submitter : RBUser) (rr : EmailReviewRequest)
    (extra : Option (List Recipient))
    (hsub : userOk rr.local_site submitter = true)
    (hown : submitter.should_send_own_updates = true) :
    (∀ u ∈ rr.target_people, userOk rr.local_site u = true →
      Recipient.user u ∈ (build_recipients submitter rr extra none).1) ∧
    ((∃ u ∈ rr.target_people, userOk rr.local_site u = true) →
      (submitter ∉ rr.target_people →
        Recipient.user submitter ∈ (build_recipients submitter rr extra none).2) ∧
      (∀ g ∈ rr.target_groups, groupOk rr.local_site g = true →
        Recipient.group g ∈ (build_recipients submitter rr extra none).2)) ∧
    ((¬ ∃ u ∈ rr.target_people, userOk rr.local_site u = true) →
      (build_recipients submitter rr extra none).2 = ∅ ∧
      Recipient.user submitter ∈ (build_recipients submitter rr extra none).1 ∧
      (∀ g ∈ rr.target_groups, groupOk rr.local_site g = true →
        Recipient.group g ∈ (build_recipients submitter rr extra none).1)) := by
  have hbase : Recipient.user submitter ∈ basePool rr.local_site submitter := by
    simp [basePool, hsub]
  by_cases hex : ∃ u ∈ rr.target_people, userOk rr.local_site u = true
  · -- at least one target person survives
    have htp : (filteredTargetPeople rr).isEmpty = false := by
      rcases hex with ⟨u, hu, hok⟩
      have : Recipient.user u ∈ filteredTargetPeople rr := by
        simp only [filteredTargetPeople, List.mem_map, List.mem_filter]
        exact ⟨u, ⟨hu, hok⟩, rfl⟩
      rcases hfp : filteredTargetPeople rr with _ | ⟨x, xs⟩
      · rw [hfp] at this
        simp at this
      · rfl
    have hg : gatherRecipients submitter rr extra none =
        (basePool rr.local_site submitter ∪
          ((extra.getD []).filter (recipOk rr.local_site)).toFinset ∪
          ((rr.starred_by.filter (userOk rr.local_site)).map Recipient.user).toFinset ∪
          ((rr.target_groups.filter (groupOk rr.local_site)).map Recipient.group).toFinset ∪
          (filteredTargetPeople rr).toFinset,
         (filteredTargetPeople rr).toFinset) := by
      simp [gatherRecipients, htp]
    have hne : (filteredTargetPeople rr).toFinset ≠ ∅ := by
      intro hcon
      rw [List.toFinset_eq_empty_iff] at hcon
      rw [hcon] at htp
      simp at htp
    have hbuild : build_recipients submitter rr extra none =
        ((filteredTargetPeople rr).toFinset,
         (basePool rr.local_site submitter ∪
            ((extra.getD []).filter (recipOk rr.local_site)).toFinset ∪
            ((rr.starred_by.filter (userOk rr.local_site)).map Recipient.user).toFinset ∪
            ((rr.target_groups.filter (groupOk rr.local_site)).map Recipient.group).toFinset ∪
            (filteredTargetPeople rr).toFinset) \
           (filteredTargetPeople rr).toFinset) := by
      rw [build_recipients, hg]
      simp [suppressOwnUpdates, hown, splitToCc, hne]
    refine ⟨?_, ?_, ?_⟩
    · intro u hu hok
      rw [hbuild]
      simp only [List.mem_toFinset, filteredTargetPeople, List.mem_map, List.mem_filter]
      exact ⟨u, ⟨hu, hok⟩, rfl⟩
    · intro _
      constructor
      · intro hnotmem
        rw [hbuild]
        simp only [Finset.mem_sdiff, Finset.mem_union]
        constructor
        · exact Or.inl (Or.inl (Or.inl (Or.inl hbase)))
        · intro hcon
          simp only [List.mem_toFinset, filteredTargetPeople, List.mem_map,
            List.mem_filter] at hcon
          rcases hcon with ⟨v, ⟨hv, _⟩, hvu⟩
          cases hvu
          exact hnotmem hv
      · intro g hgmem hgok
        rw [hbuild]
        simp only [Finset.mem_sdiff, Finset.mem_union]
        constructor
        · refine Or.inl (Or.inr ?_)
          simp only [List.mem_toFinset, List.mem_map, List.mem_filter]
          exact ⟨g, ⟨hgmem, hgok⟩, rfl⟩
        · intro hcon
          simp only [List.mem_toFinset, filteredTargetPeople, List.mem_map,
            List.mem_filter] at hcon
          rcases hcon with ⟨v, _, hvg⟩
          cases hvg
    · intro hcon
      exact absurd hex hcon
  · -- no target person survives the filters
    have htp : (filteredTargetPeople rr).isEmpty = true := by
      rcases hemp : filteredTargetPeople rr with _ | ⟨x, xs⟩
      · rfl
      · exfalso
        have hx : x ∈ filteredTargetPeople rr := by rw [hemp]; simp
        simp only [filteredTargetPeople, List.mem_map, List.mem_filter] at hx
        rcases hx with ⟨v, ⟨hv, hok⟩, _⟩
        exact hex ⟨v, hv, hok⟩
    have hg : gatherRecipients submitter rr extra none =
        (basePool rr.local_site submitter ∪
          ((extra.getD []).filter (recipOk rr.local_site)).toFinset ∪
          ((rr.starred_by.filter (userOk rr.local_site)).map Recipient.user).toFinset ∪
          ((rr.target_groups.filter (groupOk rr.local_site)).map Recipient.group).toFinset,
         ∅) := by
      simp [gatherRecipients, htp]
    have hbuild : build_recipients submitter rr extra none =
        (basePool rr.local_site submitter ∪
          ((extra.getD []).filter (recipOk rr.local_site)).toFinset ∪
          ((rr.starred_by.filter (userOk rr.local_site)).map Recipient.user).toFinset ∪
          ((rr.target_groups.filter (groupOk rr.local_site)).map Recipient.group).toFinset,
         ∅) := by
      rw [build_recipients, hg]
      simp [suppressOwnUpdates, hown, splitToCc]
    refine ⟨?_, ?_, ?_⟩
    · intro u hu hok
      exact absurd ⟨u, hu, hok⟩ hex
    · intro hcon
      exact absurd hcon hex
    · intro _
      refine ⟨by rw [hbuild], ?_, ?_⟩
      · rw [hbuild]
        simp only [Finset.mem_union]
        exact Or.inl (Or.inl (Or.inl hbase))
      · intro g hgmem hgok
        rw [hbuild]
        simp only [Finset.mem_union]
        refine Or.inr ?_
        simp only [List.mem_toFinset, List.mem_map, List.mem_filter]
        exact ⟨g, ⟨hgmem, hgok⟩, rfl⟩

/-- Witness for C5 at the `test_build_recipients_target_people_and_groups`
scenario: reviewer in `to`, submitter and group in `cc`. -/
theorem build_recipients_placement_witness :
    Recipient.user demoReviewer ∈
      (build_recipients demoSubmitter demoPeopleRequest none none).1 ∧
    Recipient.user demoSubmitter ∈
      (build_recipients demoSubmitter demoPeopleRequest none none).2 ∧
    Recipient.group demoGroup1 ∈
      (build_recipients demoSubmitter demoPeopleRequest none none).2 := by
  have h := build_recipients_placement demoSubmitter demoPeopleRequest none
    (by decide) (by decide)
  exact ⟨h.1 demoReviewer (by decide) (by decide),
         (h.2.1 (by decide)).1 (by decide),
         (h.2.1 (by decide)).2 demoGroup1 (by decide) (by decide)⟩

/-- C6 counterexample: in the `test_build_recipients_limit_to` scenario the
allow-listed user is neither the submitter nor in the base pool
(`target_people ∪ target_groups ∪ extra_recipients`, with no extra
recipients), yet lands in `to` — the pool is not intersected with the base
pool as the claim states. -/
theorem limit_includes_non_base_recipient :
    demoGrumpy ∉ demoPeopleRequest.target_people ∧
    demoGrumpy ≠ demoPeopleRequest.submitter ∧
    Recipient.user demoGrumpy ∈
      (build_recipients demoSubmitter demoPeopleRequest none
        (some [Recipient.user demoGrumpy])).1 := by
  decide

/-- C6 (amended): when `limit_recipients_to` is provided, the recipient pool
is the submitter (if they pass the filters) plus the allow-list filtered by
the activity/e-mail/local-site rules — independent of `target_people`,
`target_groups`, starring users and `extra_recipients` — and all surviving
recipients are placed in `to` with `cc` empty. -/
theorem build_recipients_limit_replaces_pool (submitter : RBUser)
    (rr : EmailReviewRequest) (extra : Option (List Recipient))
    (limit : List Recipient)
    (hown : submitter.should_send_own_updates = true) :
    (build_recipients submitter rr extra (some limit)).2 = ∅ ∧
    (build_recipients submitter rr extra (some limit)).1 =
      basePool rr.local_site submitter ∪
        (limit.filter (recipOk rr.local_site)).toFinset ∧
    (∀ (tp : List RBUser) (tg : List RBGroup) (sb : List RBUser)
        (ex2 : Option (List Recipient)),
      build_recipients submitter
          { rr with target_people := tp, target_groups := tg, starred_by := sb }
          ex2 (some limit) =
        build_recipients submitter rr extra (some limit)) := by
  have hb : ∀ (rr2 : EmailReviewRequest) (ex : Option (List Recipient)),
      rr2.local_site = rr.local_site →
      build_recipients submitter rr2 ex (some limit) =
        (basePool rr.local_site submitter ∪
          (limit.filter (recipOk rr.local_site)).toFinset, ∅) := by
    intro rr2 ex hls
    rw [build_recipients]
    simp [gatherRecipients, suppressOwnUpdates, splitToCc, hown, hls]
  have h1 := hb rr extra rfl
  refine ⟨by rw [h1], by rw [h1], ?_⟩
  intro tp tg sb ex2
  rw [h1, hb { rr with target_people := tp, target_groups := tg, starred_by := sb } ex2 rfl]

/-- Witness for C6 at the `test_build_recipients_limit_to` scenario. -/
theorem build_recipients_limit_replaces_pool_witness :
    (build_recipients demoSubmitter demoPeopleRequest none
        (some [Recipient.user demoGrumpy])).2 = ∅ ∧
    (build_recipients demoSubmitter demoPeopleRequest none
        (some [Recipient.user demoGrumpy])).1 =
      basePool demoPeopleRequest.local_site demoSubmitter ∪
        ([Recipient.user demoGrumpy].filter
          (recipOk demoPeopleRequest.local_site)).toFinset := by
  have h := build_recipients_limit_replaces_pool demoSubmitter demoPeopleRequest
    none [Recipient.user demoGrumpy] (by decide)
  exact ⟨h.1, h.2.1⟩

/-- C7 counterexample: with completely empty reviewer sets the resolver does
not yield empty `to`/`cc`: the submitter is placed in `to`. -/
theorem empty_reviewers_to_nonempty :
    demoEmptyRequest.target_people = [] ∧
    demoEmptyRequest.target_groups = [] ∧
    (build_recipients demoSubmitter demoEmptyRequest none none).1 =
      {Recipient.user demoSubmitter} ∧
    (build_recipients demoSubmitter demoEmptyRequest none none).1 ≠ ∅ ∧
    (build_recipients demoSubmitter demoEmptyRequest none none).2 = ∅ := by
  decide

/-- C7 (amended): for empty reviewer sets recipient resolution is total
(never raises) and yields `cc = ∅`; `to` is exactly `{submitter}` when the
submitter passes the filters and keeps default preferences, and empty when
the submitter is filtered out or suppressed their own updates. -/
theorem build_recipients_empty_reviewers (submitter : RBUser)
    (rr : EmailReviewRequest)
    (hp : rr.target_people = []) (hg : rr.target_groups = [])
    (hs : rr.starred_by = []) :
    (build_recipients submitter rr none none).2 = ∅ ∧
    (userOk rr.local_site submitter = true →
      submitter.should_send_own_updates = true →
      (build_recipients submitter rr none none).1 = {Recipient.user submitter}) ∧
    (userOk rr.local_site submitter = false ∨
        submitter.should_send_own_updates = false →
      (build_recipients submitter rr none none).1 = ∅) := by
  have htp : filteredTargetPeople rr = [] := by
    simp [filteredTargetPeople, hp]
  have hgather : gatherRecipients submitter rr none none =
      (basePool rr.local_site submitter, ∅) := by
    simp [gatherRecipients, htp, hg, hs]
  by_cases hok : userOk rr.local_site submitter = true
  · by_cases hown : submitter.should_send_own_updates = true
    · rw [build_recipients, hgather]
      simp [suppressOwnUpdates, splitToCc, hown, basePool, hok]
    · rw [build_recipients, hgather]
      simp [suppressOwnUpdates, splitToCc, hown, basePool, hok, hp]
  · rw [build_recipients, hgather]
    by_cases hown : submitter.should_send_own_updates = true
    · simp [suppressOwnUpdates, splitToCc, hown, basePool, hok]
    · simp [suppressOwnUpdates, splitToCc, hown, basePool, hok]

/-- Witness for C7 at the `test_build_recipients_user_receive_email`
scenario. -/
theorem build_recipients_empty_reviewers_witness :
    (build_recipients demoSubmitter demoEmptyRequest none none).2 = ∅ ∧
    (build_recipients demoSubmitter demoEmptyRequest none none).1 =
      {Recipient.user demoSubmitter} :=
  ⟨(build_recipients_empty_reviewers demoSubmitter demoEmptyRequest rfl rfl rfl).1,
   (build_recipients_empty_reviewers demoSubmitter demoEmptyRequest rfl rfl rfl).2.1
     (by decide) (by decide)⟩

/-! ## Helper lemmas about summary truncation and the bug list -/

/-- `rfindChar` returns `none` exactly when the character is absent. -/
theorem rfindChar_none (ch : Char) :
    ∀ s : List Char, rfindChar ch s = none → ch ∉ s := by
  intro s
  induction s with
  | nil => simp
  | cons c cs ih =>
    intro h
    simp only [rfindChar] at h
    cases hr : rfindChar ch cs with
    | some k =>
      rw [hr] at h
      simp at h
    | none =>
      rw [hr] at h
      by_cases hc : c = ch
      · simp [hc] at h
      · intro hmem
        rcases List.mem_cons.mp hmem with hmem | hmem
        · exact hc hmem.symm
        · exact ih hr hmem

/-- When `rfindChar` returns an index, that index holds the character and no
later index does: it is the last occurrence. -/
theorem rfindChar_some (ch : Char) :
    ∀ (s : List Char) (i : Nat), rfindChar ch s = some i →
      s[i]? = some ch ∧ ∀ j, i < j → s[j]? ≠ some ch := by
  intro s
  induction s with
  | nil => intro i h; simp [rfindChar] at h
  | cons c cs ih =>
    intro i h
    simp only [rfindChar] at h
    cases hr : rfindChar ch cs with
    | some k =>
      rw [hr] at h
      simp only [Option.some.injEq] at h
      subst h
      have hspec := ih k hr
      constructor
      · simpa [List.getElem?_cons_succ] using hspec.1
      · intro j hj
        cases j with
        | zero => omega
        | succ m =>
          simp only [List.getElem?_cons_succ]
          exact hspec.2 m (by omega)
    | none =>
      rw [hr] at h
      by_cases hc : c = ch
      · subst hc
        rw [if_pos rfl] at h
        simp only [Option.some.injEq] at h
        subst h
        constructor
        · simp
        · intro j hj
          cases j with
          | zero => omega
          | succ m =>
            simp only [List.getElem?_cons_succ]
            intro hcon
            exact rfindChar_none _ cs hr (List.getElem?_mem hcon)
      · simp [hc] at h

/-- C9: after every `save`, the stored summary has length at most
`MAX_SUMMARY_LENGTH` (300); when the incoming summary is longer, it is first
cut to its first 300 characters and, if that prefix contains a period,
further truncated to end immediately after the last period of the prefix. -/
theorem save_summary_truncated (d : ReviewRequestDetails) :
    d.save.summary.length ≤ MAX_SUMMARY_LENGTH ∧
    (MAX_SUMMARY_LENGTH < d.summary.length →
      (('.' ∈ d.summary.take MAX_SUMMARY_LENGTH) →
        ∃ i, (d.summary.take MAX_SUMMARY_LENGTH)[i]? = some '.' ∧
          (∀ j, i < j → (d.summary.take MAX_SUMMARY_LENGTH)[j]? ≠ some '.') ∧
          d.save.summary = (d.summary.take MAX_SUMMARY_LENGTH).take (i + 1)) ∧
      (('.' ∉ d.summary.take MAX_SUMMARY_LENGTH) →
        d.save.summary = d.summary.take MAX_SUMMARY_LENGTH)) := by
  have hsave : d.save.summary = truncateSummary d.summary MAX_SUMMARY_LENGTH := rfl
  by_cases hlen : MAX_SUMMARY_LENGTH < d.summary.length
  · cases hfind : rfindChar '.' (d.summary.take MAX_SUMMARY_LENGTH) with
    | some i =>
      have hval : d.save.summary = (d.summary.take MAX_SUMMARY_LENGTH).take (i + 1) := by
        rw [hsave, truncateSummary, if_pos hlen]
        simp only [hfind]
      have hspec := rfindChar_some '.' (d.summary.take MAX_SUMMARY_LENGTH) i hfind
      have hidx : i < (d.summary.take MAX_SUMMARY_LENGTH).length :=
        (List.getElem?_eq_some.mp hspec.1).1
      have hple : (d.summary.take MAX_SUMMARY_LENGTH).length ≤ MAX_SUMMARY_LENGTH := by
        simp [List.length_take]
      refine ⟨?_, fun _ => ⟨fun _ => ⟨i, hspec.1, hspec.2, hval⟩, fun hno => ?_⟩⟩
      · rw [hval]
        simp only [List.length_take]
        omega
      · exact absurd (List.getElem?_mem hspec.1) hno
    | none =>
      have hval : d.save.summary = d.summary.take MAX_SUMMARY_LENGTH := by
        rw [hsave, truncateSummary, if_pos hlen]
        simp only [hfind]
      refine ⟨?_, fun _ => ⟨fun hmem => ?_, fun _ => hval⟩⟩
      · rw [hval]
        simp only [List.length_take]
        omega
      · exact absurd hmem (rfindChar_none '.' _ hfind)
  · have hval : d.save.summary = d.summary := by
      rw [hsave, truncateSummary, if_neg hlen]
    exact ⟨by rw [hval]; omega, fun hcon => absurd hcon hlen⟩

set_option maxRecDepth 4000 in
/-- Witness for C9: a 302-character summary is cut back to its 300-character
prefix's last period. -/
theorem save_summary_truncated_witness :
    (ReviewRequestDetails.save ⟨demoLongSummary, []⟩).summary.length ≤
      MAX_SUMMARY_LENGTH ∧
    (('.' ∈ demoLongSummary.take MAX_SUMMARY_LENGTH) →
      ∃ i, (demoLongSummary.take MAX_SUMMARY_LENGTH)[i]? = some '.' ∧
        (∀ j, i < j → (demoLongSummary.take MAX_SUMMARY_LENGTH)[j]? ≠ some '.') ∧
        (ReviewRequestDetails.save ⟨demoLongSummary, []⟩).summary =
          (demoLongSummary.take MAX_SUMMARY_LENGTH).take (i + 1)) :=
  ⟨(save_summary_truncated ⟨demoLongSummary, []⟩).1,
   ((save_summary_truncated ⟨demoLongSummary, []⟩).2 (by decide)).1⟩

/-- Lexicographic string order is total. -/
theorem strLE_total : ∀ a b : List Char, strLE a b = true ∨ strLE b a = true := by
  intro a
  induction a with
  | nil => intro b; left; rfl
  | cons x xs ih =>
    intro b
    cases b with
    | nil => right; rfl
    | cons y ys =>
      rcases lt_trichotomy x y with h | h | h
      · left; simp [strLE, h]
      · subst h
        rcases ih ys with h2 | h2
        · left; simp [strLE, lt_self_iff_false, h2]
        · right; simp [strLE, lt_self_iff_false, h2]
      · right; simp [strLE, h]

/-- Lexicographic string order is transitive. -/
theorem strLE_trans :
    ∀ a b c : List Char, strLE a b = true → strLE b c = true → strLE a c = true := by
  intro a
  induction a with
  | nil => intro b c _ _; rfl
  | cons x xs ih =>
    intro b c hab hbc
    cases b with
    | nil => simp [strLE] at hab
    | cons y ys =>
      cases c with
      | nil => simp [strLE] at hbc
      | cons z zs =>
        rcases lt_trichotomy x y with h1 | h1 | h1
        · rcases lt_trichotomy y z with h2 | h2 | h2
          · simp [strLE, lt_trans h1 h2]
          · subst h2; simp [strLE, h1]
          · simp [strLE, lt_asymm h2, h2] at hbc
        · subst h1
          simp only [strLE, lt_self_iff_false, if_false] at hab
          rcases lt_trichotomy x z with h2 | h2 | h2
          · simp [strLE, h2]
          · subst h2
            simp only [strLE, lt_self_iff_false, if_false] at hbc ⊢
            exact ih ys zs hab hbc
          · simp [strLE, lt_asymm h2, h2] at hbc
        · simp [strLE, lt_asymm h1, h1] at hab

/-- C10: `get_bug_list` returns the empty list for the empty string;
otherwise it returns the duplicate-free list of the tokens of `bugs_closed`
split on commas and spaces, sorted numerically (by the `int` key) when every
token parses as an integer and sorted alphabetically otherwise. -/
theorem get_bug_list_spec (s : List Char) :
    (s = [] → get_bug_list s = []) ∧
    (s ≠ [] →
      (get_bug_list s).Perm (splitBugs s).dedup ∧
      (get_bug_list s).Nodup ∧
      (allParseAsInt ((splitBugs s).dedup) = true →
        (get_bug_list s).Pairwise (fun a b => bugKeyVal a ≤ bugKeyVal b)) ∧
      (allParseAsInt ((splitBugs s).dedup) = false →
        (get_bug_list s).Pairwise (fun a b => strLE a b = true))) := by
  constructor
  · intro h; simp [get_bug_list, h]
  · intro hne
    by_cases hall : allParseAsInt ((splitBugs s).dedup) = true
    · have hval : get_bug_list s =
          ((splitBugs s).dedup).insertionSort (fun a b => bugKeyVal a ≤ bugKeyVal b) := by
        simp [get_bug_list, hne, hall]
      rw [hval]
      refine ⟨List.perm_insertionSort _ _, ?_, fun _ => ?_, fun hcon => ?_⟩
      · exact ((List.perm_insertionSort _ _).symm.nodup_iff).mp (List.nodup_dedup _)
      · haveI ht : IsTotal (List Char) (fun a b => bugKeyVal a ≤ bugKeyVal b) :=
          ⟨fun a b => Int.le_total _ _⟩
        haveI htr : IsTrans (List Char) (fun a b => bugKeyVal a ≤ bugKeyVal b) :=
          ⟨fun _ _ _ h1 h2 => le_trans h1 h2⟩
        exact List.sorted_insertionSort _ _
      · rw [hall] at hcon
        exact absurd hcon (by simp)
    · have hall2 : allParseAsInt ((splitBugs s).dedup) = false := by
        rcases hb : allParseAsInt ((splitBugs s).dedup) with _ | _
        · rfl
        · exact absurd hb hall
      have hval : get_bug_list s =
          ((splitBugs s).dedup).insertionSort (fun a b => strLE a b = true) := by
        simp [get_bug_list, hne, hall2]
      rw [hval]
      refine ⟨List.perm_insertionSort _ _, ?_, fun hcon => ?_, fun _ => ?_⟩
      · exact ((List.perm_insertionSort _ _).symm.nodup_iff).mp (List.nodup_dedup _)
      · exact absurd hcon hall
      · haveI ht : IsTotal (List Char) (fun a b => strLE a b = true) :=
          ⟨fun a b => strLE_total a b⟩
        haveI htr : IsTrans (List Char) (fun a b => strLE a b = true) :=
          ⟨fun a b c h1 h2 => strLE_trans a b c h1 h2⟩
        exact List.sorted_insertionSort _ _

/-- Witness for C10 at the bug string `"10,2,2"` (duplicates removed, numeric
sort applies). -/
theorem get_bug_list_spec_witness :
    (get_bug_list demoBugs).Perm (splitBugs demoBugs).dedup ∧
    (get_bug_list demoBugs).Nodup ∧
    (allParseAsInt ((splitBugs demoBugs).dedup) = true →
      (get_bug_list demoBugs).Pairwise (fun a b => bugKeyVal a ≤ bugKeyVal b)) ∧
    (allParseAsInt ((splitBugs demoBugs).dedup) = false →
      (get_bug_list demoBugs).Pairwise (fun a b => strLE a b = true)) :=
  (get_bug_list_spec demoBugs).2 (by decide)

end ReviewBoard
